import Mathlib

/-!
Verification of the replica reconciliation engine of the voyis image editor.

The model shallowly embeds:
  * the local replica operations of `src/client/src/syncUtils.ts`
    (`loadLocalImages`, `updateLocalImage`, `markImagePending`,
    `removeLocalImage`, `syncWithServer`), and
  * the remote comparator, the `app.post("/sync")` handler of the server
    (`src/unnamed/part_001`, lines 458-518).

Timestamps (JS millisecond epoch values and ISO date strings) are modelled
as `Nat`; optional / possibly-absent JSON fields are modelled as `Option`.
The transport (`fetch` of `POST /sync`) is a parameter: a function from the
wire payload to `Except String SyncResponse`, where `Except.error` covers
a network error, a non-2xx status and a malformed response body alike.
-/

/-- `syncStatus` of a local record: `'synced' | 'pending' | 'conflict'`. -/
inductive SyncStatus where
  | synced
  | pending
  | conflict
deriving DecidableEq, Repr

/-- A server-shaped image record as it crosses the wire (the fields of
`buildImageResponse` in the server; `exif` is irrelevant to reconciliation
and omitted).  Fields that JS code guards with `||` fallbacks are `Option`. -/
structure ImageItem where
  id : Nat
  filename : String
  mimetype : Option String
  size : Nat
  createdAt : Option Nat
  updatedAt : Option Nat
  thumbnail : Option String
  original : Option String
deriving DecidableEq, Repr

/-- A row of the authoritative store (`prisma.image`): every field present,
`updatedAt` assigned by the server. -/
structure ServerImage where
  id : Nat
  filename : String
  mimetype : String
  size : Nat
  createdAt : Nat
  updatedAt : Nat
deriving DecidableEq, Repr

/-- `buildImageResponse` of the server (`src/unnamed/part_001` lines 139-149). -/
def buildImageResponse (img : ServerImage) : ImageItem :=
  { id := img.id
    filename := img.filename
    mimetype := some img.mimetype
    size := img.size
    createdAt := some img.createdAt
    updatedAt := some img.updatedAt
    thumbnail := some ("/thumbnails/thumb-" ++ img.filename)
    original := some ("/uploads/images/" ++ img.filename) }

/-- `LocalImageItem` of `syncUtils.ts`: an image record plus the replica
bookkeeping fields `lastModified` and `syncStatus`. -/
structure LocalImageItem where
  id : Nat
  filename : String
  mimetype : Option String
  size : Nat
  createdAt : Option Nat
  updatedAt : Option Nat
  thumbnail : Option String
  original : Option String
  lastModified : Nat
  syncStatus : SyncStatus
deriving DecidableEq, Repr

/-- The wire summary `{id, lastModified, syncStatus}` sent to `POST /sync`. -/
structure SyncSummary where
  id : Nat
  lastModified : Nat
  syncStatus : SyncStatus
deriving DecidableEq, Repr

/-- A conflict entry as the server builds it:
`{id, server, serverUpdatedAt, localLastModified}`. -/
structure ConflictEntry where
  id : Nat
  server : ImageItem
  serverUpdatedAt : Nat
  localLastModified : Nat
deriving DecidableEq, Repr

/-- The body of a successful `POST /sync` response. -/
structure SyncResponse where
  addedOrUpdated : List ImageItem
  removed : List Nat
  conflicts : List ConflictEntry
deriving DecidableEq, Repr

/-- The `SyncResult` returned by `syncWithServer`. -/
structure SyncResult where
  success : Bool
  uploaded : Nat
  downloaded : Nat
  conflicts : Nat
  error : Option String
deriving DecidableEq, Repr

/-- Client-side persistent state: key `voyis_local_images` (the replica)
and key `voyis_last_sync` (the last-sync marker). -/
structure ClientState where
  images : List LocalImageItem
  lastSync : Option Nat
deriving DecidableEq, Repr

/-- A raw element of the JSON array stored under `voyis_local_images`,
before the normalisation performed by `loadLocalImages`. -/
structure RawLocalImage where
  id : Nat
  filename : String
  mimetype : Option String
  size : Nat
  createdAt : Option Nat
  updatedAt : Option Nat
  thumbnail : Option String
  original : Option String
  lastModified : Option Nat
  syncStatus : Option SyncStatus
deriving DecidableEq, Repr

/-- The possible states of the `voyis_local_images` storage slot as
`loadLocalImages` observes them: the storage access throws, the key is
absent, `JSON.parse` throws, the parsed value is not an array, or it is
an array of raw records. -/
inductive StoredState where
  | throws
  | absent
  | malformed
  | notArray
  | records (raw : List RawLocalImage)
deriving DecidableEq, Repr

/-- `loadLocalImages` (`syncUtils.ts` lines 23-48): total; every degenerate
storage state yields `[]`, and each raw record is normalised with the
fallbacks of lines 30-41.  `now` stands for `new Date()` / `Date.now()`. -/
def loadLocalImages (stored : StoredState) (now : Nat) : List LocalImageItem :=
  match stored with
  | .throws => []
  | .absent => []
  | .malformed => []
  | .notArray => []
  | .records raw =>
    raw.map fun img =>
      let fallbackUpdatedAt := img.updatedAt.getD (img.createdAt.getD now)
      { id := img.id
        filename := img.filename
        mimetype := some (img.mimetype.getD "image/jpeg")
        size := img.size
        createdAt := img.createdAt
        updatedAt := some fallbackUpdatedAt
        thumbnail := some (img.thumbnail.getD ("/thumbnails/thumb-" ++ img.filename))
        original := some (img.original.getD ("/uploads/images/" ++ img.filename))
        lastModified := img.lastModified.getD fallbackUpdatedAt
        syncStatus := img.syncStatus.getD .synced }

/-- `findIndex` + overwrite-or-`push` on the replica array, the shape shared
by `updateLocalImage` (lines 89-104) and the adopt loop of `syncWithServer`
(lines 167-177): replace the first entry with the item's id, else append. -/
def upsertFirst (localImages : List LocalImageItem) (item : LocalImageItem) :
    List LocalImageItem :=
  match localImages with
  | [] => [item]
  | x :: xs => if x.id = item.id then item :: xs else x :: upsertFirst xs item

/-- `findIndex` + `splice(idx, 1)` of `syncWithServer` (lines 181-186):
remove the first entry with the given id, if any. -/
def removeFirst (localImages : List LocalImageItem) (id : Nat) :
    List LocalImageItem :=
  match localImages with
  | [] => []
  | x :: xs => if x.id = id then xs else x :: removeFirst xs id

/-- The `localImage` record built by `updateLocalImage` (lines 91-98). -/
def localImageOf (image : ImageItem) (now : Nat) : LocalImageItem :=
  { id := image.id
    filename := image.filename
    mimetype := some (image.mimetype.getD "image/jpeg")
    size := image.size
    createdAt := image.createdAt
    updatedAt := image.updatedAt
    thumbnail := some (image.thumbnail.getD ("/thumbnails/thumb-" ++ image.filename))
    original := some (image.original.getD ("/uploads/images/" ++ image.filename))
    lastModified := image.updatedAt.getD (image.createdAt.getD now)
    syncStatus := .synced }

/-- `updateLocalImage` (`syncUtils.ts` lines 87-107), acting on the loaded
replica; the returned list is what `saveLocalImages` persists in full. -/
def updateLocalImage (localImages : List LocalImageItem) (image : ImageItem)
    (now : Nat) : List LocalImageItem :=
  upsertFirst localImages (localImageOf image now)

/-- `markImagePending` (`syncUtils.ts` lines 112-120): `find` the first entry
with the id and mutate it in place; no-op when absent. -/
def markImagePending (localImages : List LocalImageItem) (imageId : Nat)
    (now : Nat) : List LocalImageItem :=
  match localImages with
  | [] => []
  | x :: xs =>
    if x.id = imageId then { x with syncStatus := .pending, lastModified := now } :: xs
    else x :: markImagePending xs imageId now

/-- `removeLocalImage` (`syncUtils.ts` lines 125-129): `filter` out the id. -/
def removeLocalImage (localImages : List LocalImageItem) (imageId : Nat) :
    List LocalImageItem :=
  localImages.filter fun img => decide (img.id ≠ imageId)

/-- The summary an entry contributes to the sync payload (lines 146-150). -/
def toSummary (img : LocalImageItem) : SyncSummary :=
  { id := img.id, lastModified := img.lastModified, syncStatus := img.syncStatus }

/-- The `syncedImage` adopted from an `addedOrUpdated` entry
(`syncUtils.ts` lines 168-172): a plain spread, no fallbacks, with
`lastModified = new Date(image.updatedAt || image.createdAt || Date.now()).getTime()`. -/
def adoptImage (image : ImageItem) (now : Nat) : LocalImageItem :=
  { id := image.id
    filename := image.filename
    mimetype := image.mimetype
    size := image.size
    createdAt := image.createdAt
    updatedAt := image.updatedAt
    thumbnail := image.thumbnail
    original := image.original
    lastModified := image.updatedAt.getD (image.createdAt.getD now)
    syncStatus := .synced }

/-- Local-wins resolution of the final loop (lines 189-194) on one entry. -/
def resolvePending (img : LocalImageItem) : LocalImageItem :=
  if img.syncStatus = .pending then { img with syncStatus := .synced } else img

/-- The replica after the adopt loop of `syncWithServer` (lines 166-179). -/
def afterAddOf (localImages : List LocalImageItem) (resp : SyncResponse)
    (now : Nat) : List LocalImageItem :=
  resp.addedOrUpdated.foldl (fun acc image => upsertFirst acc (adoptImage image now))
    localImages

/-- The replica after the removal loop of `syncWithServer` (lines 181-186). -/
def afterRemoveOf (localImages : List LocalImageItem) (resp : SyncResponse)
    (now : Nat) : List LocalImageItem :=
  resp.removed.foldl removeFirst (afterAddOf localImages resp now)

/-- The apply phase of `syncWithServer` (lines 166-204) on a loaded replica
and a parsed response: adopt `addedOrUpdated`, apply `removed`, mark the
remaining `pending` entries `synced` (counting them as `uploaded`), and
report `downloaded`/`conflicts` counts. -/
def applySyncResponse (localImages : List LocalImageItem) (resp : SyncResponse)
    (now : Nat) : List LocalImageItem × SyncResult :=
  ((afterRemoveOf localImages resp now).map resolvePending,
   { success := true
     uploaded :=
       ((afterRemoveOf localImages resp now).filter fun img =>
         decide (img.syncStatus = .pending)).length
     downloaded := resp.addedOrUpdated.length
     conflicts := resp.conflicts.length
     error := none })

/-- `syncWithServer` (`syncUtils.ts` lines 135-211).  `transport` abstracts
the `fetch` round-trip: `Except.error` is any transmission failure (network
error, non-2xx status, malformed body), in which case the `catch` block
returns the failure result and neither `saveLocalImages` nor
`updateLastSyncTime` runs, leaving the stored state untouched. -/
def syncWithServer (st : ClientState)
    (transport : List SyncSummary → Except String SyncResponse) (now : Nat) :
    ClientState × SyncResult :=
  match transport (st.images.map toSummary) with
  | .error e =>
    (st, { success := false, uploaded := 0, downloaded := 0, conflicts := 0,
           error := some e })
  | .ok resp =>
    let applied := applySyncResponse st.images resp now
    ({ images := applied.1, lastSync := some now }, applied.2)

/-- `new Map(localImages.map(img => [img.id, img])).get(id)`: with duplicate
ids the later binding wins, so lookup is the last matching summary. -/
def localMapGet (localImages : List SyncSummary) (id : Nat) : Option SyncSummary :=
  localImages.reverse.find? fun s => s.id == id

/-- Whether the server loop pushes `buildImageResponse img` onto
`addedOrUpdated` (`src/unnamed/part_001` lines 475-500, minus the conflict
branch). -/
def classifyAdded (localImages : List SyncSummary) (img : ServerImage) : Bool :=
  match localMapGet localImages img.id with
  | none => true
  | some loc =>
    if loc.syncStatus = .pending then false
    else decide (img.updatedAt > loc.lastModified)

/-- The conflict entry the server loop pushes for `img`, if any
(`src/unnamed/part_001` lines 485-495). -/
def classifyConflict (localImages : List SyncSummary) (img : ServerImage) :
    Option ConflictEntry :=
  match localMapGet localImages img.id with
  | none => none
  | some loc =>
    if loc.syncStatus = .pending ∧ img.updatedAt > loc.lastModified then
      some { id := img.id
             server := buildImageResponse img
             serverUpdatedAt := img.updatedAt
             localLastModified := loc.lastModified }
    else none

/-- The `app.post("/sync")` comparator (`src/unnamed/part_001` lines
458-518): one pass over the authoritative set classifying each record, plus
removal detection over the incoming summaries. -/
def syncHandler (serverImages : List ServerImage)
    (localImages : List SyncSummary) : SyncResponse :=
  { addedOrUpdated :=
      (serverImages.filter fun img => classifyAdded localImages img).map
        buildImageResponse
    removed :=
      ((localImages.filter fun s =>
          decide (s.id ∉ serverImages.map ServerImage.id) &&
            decide (s.syncStatus ≠ .pending)).map SyncSummary.id)
    conflicts := serverImages.filterMap (classifyConflict localImages) }

/-- One full reconciliation round (`runSync()` of the spec): `syncWithServer`
whose transport is the server's `/sync` handler over a fixed authoritative
set, succeeding. -/
def runSync (st : ClientState) (serverImages : List ServerImage) (now : Nat) :
    ClientState × SyncResult :=
  syncWithServer st (fun payload => .ok (syncHandler serverImages payload)) now

/-- `getSyncStatus` (`syncUtils.ts` lines 216-228). -/
def getSyncStatus (st : ClientState) : Nat × Nat × Option Nat × Nat :=
  ((st.images.filter fun img => decide (img.syncStatus = .pending)).length,
   (st.images.filter fun img => decide (img.syncStatus = .conflict)).length,
   st.lastSync,
   st.images.length)

/-- The ids of a replica list. -/
def idsOf (localImages : List LocalImageItem) : List Nat :=
  localImages.map LocalImageItem.id

/-- The replica invariant of §3 of the design: at most one entry per id. -/
@[reducible] def NodupIds (localImages : List LocalImageItem) : Prop :=
  (idsOf localImages).Nodup

/-- First entry of the replica with the given id. -/
def findEntry (localImages : List LocalImageItem) (id : Nat) :
    Option LocalImageItem :=
  localImages.find? fun x => x.id == id

/-! ### Generic list lemmas -/

theorem find?_eq_head?_filter {α : Type} (p : α → Bool) (l : List α) :
    l.find? p = (l.filter p).head? := by
  induction l with
  | nil => rfl
  | cons x xs ih =>
    cases h : p x
    · rw [List.find?_cons_of_neg _ (by simp [h]), List.filter_cons, h,
        if_neg Bool.false_ne_true]
      exact ih
    · rw [List.find?_cons_of_pos _ h, List.filter_cons, h, if_pos rfl]
      rfl

theorem head?_eq_getLast?_of_length_le_one {α : Type} {l : List α}
    (h : l.length ≤ 1) : l.head? = l.getLast? := by
  match l with
  | [] => rfl
  | [a] => rfl
  | a :: b :: t => simp at h

theorem find?_reverse_of_unique {α : Type} {p : α → Bool} {l : List α}
    (h : (l.filter p).length ≤ 1) : l.reverse.find? p = l.find? p := by
  rw [find?_eq_head?_filter, find?_eq_head?_filter, List.filter_reverse,
    List.head?_reverse, head?_eq_getLast?_of_length_le_one h]

theorem length_filter_key_le_one {α : Type} (f : α → Nat) (i : Nat)
    {l : List α} (h : (l.map f).Nodup) :
    (l.filter fun x => f x == i).length ≤ 1 := by
  induction l with
  | nil => simp
  | cons x xs ih =>
    simp only [List.map_cons, List.nodup_cons] at h
    by_cases hx : f x = i
    · have hnil : xs.filter (fun x => f x == i) = [] := by
        rw [List.filter_eq_nil_iff]
        intro a ha hpa
        have hai : f a = i := by simpa using hpa
        exact h.1 (by rw [hx, ← hai]; exact List.mem_map_of_mem f ha)
      simp [List.filter_cons, hx, hnil]
    · have hfx : (f x == i) = false := by simpa using hx
      simp only [List.filter_cons, hfx, Bool.false_eq_true, if_false]
      exact ih h.2

theorem find?_key_reverse_eq {α : Type} (f : α → Nat) (i : Nat) {l : List α}
    (h : (l.map f).Nodup) :
    l.reverse.find? (fun x => f x == i) = l.find? (fun x => f x == i) :=
  find?_reverse_of_unique (length_filter_key_le_one f i h)

/-! ### Lemmas on the replica primitives -/

theorem findEntry_cons (x : LocalImageItem) (xs : List LocalImageItem) (i : Nat) :
    findEntry (x :: xs) i = if x.id = i then some x else findEntry xs i := by
  by_cases h : x.id = i
  · simp [findEntry, List.find?_cons_of_pos, h]
  · simp [findEntry, List.find?_cons_of_neg, h]

theorem findEntry_upsertFirst (l : List LocalImageItem) (item : LocalImageItem)
    (i : Nat) :
    findEntry (upsertFirst l item) i =
      if item.id = i then some item else findEntry l i := by
  induction l with
  | nil =>
    by_cases h : item.id = i <;>
      simp [upsertFirst, findEntry_cons, findEntry, h]
  | cons x xs ih =>
    by_cases hx : x.id = item.id
    · rw [upsertFirst, if_pos hx, findEntry_cons]
      by_cases h : item.id = i
      · rw [if_pos h, if_pos h]
      · rw [if_neg h, if_neg h, findEntry_cons, if_neg (by rw [hx]; exact h)]
    · rw [upsertFirst, if_neg hx, findEntry_cons, ih, findEntry_cons]
      by_cases h1 : x.id = i <;> by_cases h2 : item.id = i <;>
        simp [h1, h2]
      exact absurd (h1.trans h2.symm) hx

theorem findEntry_removeFirst_ne (l : List LocalImageItem) (j i : Nat)
    (h : i ≠ j) : findEntry (removeFirst l j) i = findEntry l i := by
  induction l with
  | nil => rfl
  | cons x xs ih =>
    by_cases hx : x.id = j
    · rw [removeFirst, if_pos hx, findEntry_cons,
        if_neg (fun e => h (e.symm.trans hx))]
    · rw [removeFirst, if_neg hx, findEntry_cons, findEntry_cons, ih]

theorem findEntry_removeFirst_self {l : List LocalImageItem} (i : Nat)
    (h : NodupIds l) : findEntry (removeFirst l i) i = none := by
  induction l with
  | nil => rfl
  | cons x xs ih =>
    simp only [NodupIds, idsOf, List.map_cons, List.nodup_cons] at h
    by_cases hx : x.id = i
    · rw [removeFirst, if_pos hx, findEntry, List.find?_eq_none]
      intro a ha hpa
      have hai : a.id = i := by simpa using hpa
      exact h.1 (by rw [hx, ← hai]; exact List.mem_map_of_mem _ ha)
    · rw [removeFirst, if_neg hx, findEntry_cons, if_neg hx]
      exact ih h.2

theorem findEntry_removeFirst_none {l : List LocalImageItem} {i : Nat} (j : Nat)
    (h : findEntry l i = none) : findEntry (removeFirst l j) i = none := by
  induction l with
  | nil => rfl
  | cons x xs ih =>
    rw [findEntry_cons] at h
    by_cases hx : x.id = i
    · rw [if_pos hx] at h; cases h
    · rw [if_neg hx] at h
      by_cases hj : x.id = j
      · rw [removeFirst, if_pos hj]; exact h
      · rw [removeFirst, if_neg hj, findEntry_cons, if_neg hx]
        exact ih h

/-! ### Lemmas on the folded apply loops -/

theorem findEntry_foldl_upsert_not_mem :
    ∀ (items : List LocalImageItem) (l : List LocalImageItem) (i : Nat),
      i ∉ items.map LocalImageItem.id →
      findEntry (items.foldl upsertFirst l) i = findEntry l i := by
  intro items
  induction items with
  | nil => intro l i _; rfl
  | cons a rest ih =>
    intro l i h
    simp only [List.map_cons, List.mem_cons] at h
    push_neg at h
    rw [List.foldl_cons, ih _ _ h.2, findEntry_upsertFirst,
      if_neg (fun e => h.1 e.symm)]

theorem findEntry_foldl_upsert_mem :
    ∀ (items : List LocalImageItem) (l : List LocalImageItem)
      (a : LocalImageItem), a ∈ items → (items.map LocalImageItem.id).Nodup →
      findEntry (items.foldl upsertFirst l) a.id = some a := by
  intro items
  induction items with
  | nil => intro l a ha _; cases ha
  | cons b rest ih =>
    intro l a ha h
    simp only [List.map_cons, List.nodup_cons] at h
    rcases List.mem_cons.mp ha with rfl | hmem
    · rw [List.foldl_cons, findEntry_foldl_upsert_not_mem _ _ _ h.1,
        findEntry_upsertFirst, if_pos rfl]
    · rw [List.foldl_cons]
      exact ih _ a hmem h.2

theorem findEntry_foldl_remove_not_mem :
    ∀ (ids : List Nat) (l : List LocalImageItem) (i : Nat), i ∉ ids →
      findEntry (ids.foldl removeFirst l) i = findEntry l i := by
  intro ids
  induction ids with
  | nil => intro l i _; rfl
  | cons j rest ih =>
    intro l i h
    simp only [List.mem_cons] at h
    push_neg at h
    rw [List.foldl_cons, ih _ _ h.2, findEntry_removeFirst_ne _ _ _ h.1]

theorem findEntry_foldl_remove_none :
    ∀ (ids : List Nat) (l : List LocalImageItem) (i : Nat),
      findEntry l i = none → findEntry (ids.foldl removeFirst l) i = none := by
  intro ids
  induction ids with
  | nil => intro l i h; exact h
  | cons j rest ih =>
    intro l i h
    rw [List.foldl_cons]
    exact ih _ _ (findEntry_removeFirst_none j h)

/-! ### Preservation of the at-most-one-entry-per-id invariant -/

theorem idsOf_upsertFirst (l : List LocalImageItem) (item : LocalImageItem) :
    idsOf (upsertFirst l item) =
      if item.id ∈ idsOf l then idsOf l else idsOf l ++ [item.id] := by
  induction l with
  | nil => simp [upsertFirst, idsOf]
  | cons x xs ih =>
    by_cases h : x.id = item.id
    · rw [upsertFirst, if_pos h]
      have hmem : item.id ∈ idsOf (x :: xs) := by
        simp [idsOf, List.mem_cons, h.symm]
      rw [if_pos hmem]
      simp [idsOf, h]
    · rw [upsertFirst, if_neg h]
      simp only [idsOf, List.map_cons] at *
      rw [ih]
      by_cases hm : item.id ∈ xs.map LocalImageItem.id
      · rw [if_pos hm, if_pos (List.mem_cons_of_mem _ hm)]
      · rw [if_neg hm, if_neg (by
          simp only [List.mem_cons]
          push_neg
          exact ⟨fun e => h e.symm, hm⟩)]
        simp

theorem nodupIds_upsertFirst {l : List LocalImageItem} (item : LocalImageItem)
    (h : NodupIds l) : NodupIds (upsertFirst l item) := by
  rw [NodupIds, idsOf_upsertFirst]
  by_cases hm : item.id ∈ idsOf l
  · rwa [if_pos hm]
  · rw [if_neg hm]
    simp only [List.nodup_append, List.nodup_cons, List.not_mem_nil,
      not_false_iff, List.nodup_nil, and_true, true_and]
    refine ⟨h, ?_⟩
    intro a ha hb
    simp only [List.mem_singleton] at hb
    exact hm (hb ▸ ha)

theorem removeFirst_sublist (l : List LocalImageItem) (i : Nat) :
    (removeFirst l i).Sublist l := by
  induction l with
  | nil => simp [removeFirst]
  | cons x xs ih =>
    by_cases h : x.id = i
    · rw [removeFirst, if_pos h]
      exact List.sublist_cons_self x xs
    · rw [removeFirst, if_neg h]
      exact ih.cons₂ x

theorem nodupIds_removeFirst {l : List LocalImageItem} (i : Nat)
    (h : NodupIds l) : NodupIds (removeFirst l i) :=
  h.sublist ((removeFirst_sublist l i).map LocalImageItem.id)

theorem nodupIds_foldl_upsert :
    ∀ (items : List LocalImageItem) (l : List LocalImageItem), NodupIds l →
      NodupIds (items.foldl upsertFirst l) := by
  intro items
  induction items with
  | nil => intro l h; exact h
  | cons a rest ih =>
    intro l h
    rw [List.foldl_cons]
    exact ih _ (nodupIds_upsertFirst a h)

theorem nodupIds_foldl_remove :
    ∀ (ids : List Nat) (l : List LocalImageItem), NodupIds l →
      NodupIds (ids.foldl removeFirst l) := by
  intro ids
  induction ids with
  | nil => intro l h; exact h
  | cons j rest ih =>
    intro l h
    rw [List.foldl_cons]
    exact ih _ (nodupIds_removeFirst j h)

theorem findEntry_foldl_remove_mem :
    ∀ (ids : List Nat) (l : List LocalImageItem) (i : Nat), i ∈ ids →
      NodupIds l → findEntry (ids.foldl removeFirst l) i = none := by
  intro ids
  induction ids with
  | nil => intro l i h _; cases h
  | cons j rest ih =>
    intro l i h hl
    rw [List.foldl_cons]
    rcases List.mem_cons.mp h with rfl | hmem
    · exact findEntry_foldl_remove_none _ _ _ (findEntry_removeFirst_self i hl)
    · exact ih _ _ hmem (nodupIds_removeFirst j hl)

/-! ### `resolvePending` -/

theorem resolvePending_id (x : LocalImageItem) : (resolvePending x).id = x.id := by
  unfold resolvePending
  by_cases h : x.syncStatus = .pending <;> simp [h]

theorem resolvePending_lastModified (x : LocalImageItem) :
    (resolvePending x).lastModified = x.lastModified := by
  unfold resolvePending
  by_cases h : x.syncStatus = .pending <;> simp [h]

theorem resolvePending_ne_pending (x : LocalImageItem) :
    (resolvePending x).syncStatus ≠ .pending := by
  unfold resolvePending
  by_cases h : x.syncStatus = .pending <;> simp [h]

theorem findEntry_map_resolvePending (l : List LocalImageItem) (i : Nat) :
    findEntry (l.map resolvePending) i = (findEntry l i).map resolvePending := by
  unfold findEntry
  rw [List.find?_map]
  have hp : ((fun x : LocalImageItem => x.id == i) ∘ resolvePending) =
      fun x : LocalImageItem => x.id == i := by
    funext x
    simp [Function.comp, resolvePending_id]
  rw [hp]

theorem idsOf_map_resolvePending (l : List LocalImageItem) :
    idsOf (l.map resolvePending) = idsOf l := by
  induction l with
  | nil => rfl
  | cons x xs ih => simp [idsOf, resolvePending_id, ih]

/-! ### Membership through the apply loops -/

theorem mem_upsertFirst :
    ∀ {l : List LocalImageItem} {item x : LocalImageItem},
      x ∈ upsertFirst l item → x = item ∨ x ∈ l := by
  intro l
  induction l with
  | nil =>
    intro item x hx
    simp only [upsertFirst, List.mem_singleton] at hx
    exact Or.inl hx
  | cons y ys ih =>
    intro item x hx
    by_cases h : y.id = item.id
    · rw [upsertFirst, if_pos h] at hx
      rcases List.mem_cons.mp hx with rfl | hmem
      · exact Or.inl rfl
      · exact Or.inr (List.mem_cons_of_mem _ hmem)
    · rw [upsertFirst, if_neg h] at hx
      rcases List.mem_cons.mp hx with rfl | hmem
      · exact Or.inr (List.mem_cons_self _ _)
      · rcases ih hmem with h1 | h2
        · exact Or.inl h1
        · exact Or.inr (List.mem_cons_of_mem _ h2)

theorem mem_foldl_upsert :
    ∀ (items : List LocalImageItem) (l : List LocalImageItem)
      (x : LocalImageItem), x ∈ items.foldl upsertFirst l →
      x ∈ l ∨ x ∈ items := by
  intro items
  induction items with
  | nil => intro l x hx; exact Or.inl hx
  | cons a rest ih =>
    intro l x hx
    rw [List.foldl_cons] at hx
    rcases ih _ _ hx with h1 | h2
    · rcases mem_upsertFirst h1 with rfl | hmem
      · exact Or.inr (List.mem_cons_self _ _)
      · exact Or.inl hmem
    · exact Or.inr (List.mem_cons_of_mem _ h2)

theorem mem_foldl_remove :
    ∀ (ids : List Nat) (l : List LocalImageItem) (x : LocalImageItem),
      x ∈ ids.foldl removeFirst l → x ∈ l := by
  intro ids
  induction ids with
  | nil => intro l x hx; exact hx
  | cons j rest ih =>
    intro l x hx
    rw [List.foldl_cons] at hx
    exact (removeFirst_sublist l j).subset (ih _ _ hx)

/-! ### Lemmas on the remote comparator -/

theorem mem_of_localMapGet {locals : List SyncSummary} {i : Nat}
    {s : SyncSummary} (h : localMapGet locals i = some s) : s ∈ locals := by
  unfold localMapGet at h
  exact List.mem_reverse.mp (List.mem_of_find?_eq_some h)

theorem localMapGet_map_toSummary {l : List LocalImageItem} (i : Nat)
    (h : NodupIds l) :
    localMapGet (l.map toSummary) i = (findEntry l i).map toSummary := by
  unfold localMapGet findEntry
  rw [← List.map_reverse, List.find?_map]
  have hp : ((fun s : SyncSummary => s.id == i) ∘ toSummary) =
      fun x : LocalImageItem => x.id == i := rfl
  rw [hp, find?_key_reverse_eq LocalImageItem.id i h]

theorem classifyAdded_false_elim {locals : List SyncSummary} {R : ServerImage}
    (h : classifyAdded locals R = false) :
    ∃ s, localMapGet locals R.id = some s ∧
      (s.syncStatus = .pending ∨ R.updatedAt ≤ s.lastModified) := by
  cases hm : localMapGet locals R.id with
  | none =>
    simp only [classifyAdded, hm] at h
    exact absurd h (by simp)
  | some s =>
    simp only [classifyAdded, hm] at h
    refine ⟨s, rfl, ?_⟩
    by_cases hp : s.syncStatus = .pending
    · exact Or.inl hp
    · rw [if_neg hp] at h
      exact Or.inr (Nat.le_of_not_lt (by simpa using h))

theorem classifyConflict_none_pending {locals : List SyncSummary}
    {R : ServerImage} {s : SyncSummary}
    (hm : localMapGet locals R.id = some s) (hp : s.syncStatus = .pending)
    (hn : classifyConflict locals R = none) :
    R.updatedAt ≤ s.lastModified := by
  simp only [classifyConflict, hm] at hn
  by_cases hgt : R.updatedAt > s.lastModified
  · rw [if_pos ⟨hp, hgt⟩] at hn; cases hn
  · exact Nat.le_of_not_lt hgt

theorem classifyConflict_eq_none_of_no_pending {locals : List SyncSummary}
    (h : ∀ s ∈ locals, s.syncStatus ≠ .pending) (R : ServerImage) :
    classifyConflict locals R = none := by
  cases hm : localMapGet locals R.id with
  | none => simp only [classifyConflict, hm]
  | some s =>
    simp only [classifyConflict, hm]
    rw [if_neg]
    intro hcon
    exact h s (mem_of_localMapGet hm) hcon.1

theorem removed_not_server_id (S : List ServerImage)
    (locals : List SyncSummary) (i : Nat) (hi : i ∈ S.map ServerImage.id) :
    i ∉ (syncHandler S locals).removed := by
  intro hmem
  simp only [syncHandler] at hmem
  rcases List.mem_map.mp hmem with ⟨s, hs, rfl⟩
  have hq := (List.mem_filter.mp hs).2
  simp only [Bool.and_eq_true, decide_eq_true_eq] at hq
  exact hq.1 hi

/-! ### Projections of `runSync` and the post-state characterisation -/

theorem runSync_images (st : ClientState) (S : List ServerImage) (now : Nat) :
    (runSync st S now).1.images =
      (afterRemoveOf st.images (syncHandler S (st.images.map toSummary))
        now).map resolvePending := rfl

theorem runSync_lastSync (st : ClientState) (S : List ServerImage) (now : Nat) :
    (runSync st S now).1.lastSync = some now := rfl

theorem runSync_uploaded (st : ClientState) (S : List ServerImage) (now : Nat) :
    (runSync st S now).2.uploaded =
      ((afterRemoveOf st.images (syncHandler S (st.images.map toSummary))
        now).filter fun img => decide (img.syncStatus = .pending)).length := rfl

theorem runSync_downloaded (st : ClientState) (S : List ServerImage)
    (now : Nat) :
    (runSync st S now).2.downloaded =
      (syncHandler S (st.images.map toSummary)).addedOrUpdated.length := rfl

theorem runSync_conflicts (st : ClientState) (S : List ServerImage)
    (now : Nat) :
    (runSync st S now).2.conflicts =
      (syncHandler S (st.images.map toSummary)).conflicts.length := rfl

theorem no_pending_afterApply (l : List LocalImageItem) (resp : SyncResponse)
    (now : Nat) :
    ∀ x ∈ (applySyncResponse l resp now).1, x.syncStatus ≠ .pending := by
  intro x hx
  simp only [applySyncResponse] at hx
  rcases List.mem_map.mp hx with ⟨y, _, rfl⟩
  exact resolvePending_ne_pending y

theorem nodupIds_afterApply {l : List LocalImageItem} (resp : SyncResponse)
    (now : Nat) (h : NodupIds l) : NodupIds (applySyncResponse l resp now).1 := by
  have h1 : NodupIds (afterAddOf l resp now) := by
    rw [afterAddOf, ← List.foldl_map (fun image => adoptImage image now) upsertFirst]
    exact nodupIds_foldl_upsert _ _ h
  have h2 : NodupIds (afterRemoveOf l resp now) :=
    nodupIds_foldl_remove _ _ h1
  show NodupIds ((afterRemoveOf l resp now).map resolvePending)
  rw [NodupIds, idsOf_map_resolvePending]
  exact h2

theorem runSync_findEntry (st : ClientState) (S : List ServerImage) (now : Nat)
    (hl : NodupIds st.images) (hs : (S.map ServerImage.id).Nodup)
    (hc : ∀ R' ∈ S, classifyConflict (st.images.map toSummary) R' = none)
    {R : ServerImage} (hR : R ∈ S) :
    ∃ e, findEntry (runSync st S now).1.images R.id = some e ∧
      R.updatedAt ≤ e.lastModified := by
  have hfilter_sub :
      ((S.filter fun img => classifyAdded (st.images.map toSummary) img).map
        ServerImage.id).Nodup :=
    hs.sublist ((List.filter_sublist _).map ServerImage.id)
  have hadded :
      (syncHandler S (st.images.map toSummary)).addedOrUpdated =
        (S.filter fun img => classifyAdded (st.images.map toSummary) img).map
          buildImageResponse := rfl
  have hAA :
      afterAddOf st.images (syncHandler S (st.images.map toSummary)) now =
        (((S.filter fun img => classifyAdded (st.images.map toSummary) img).map
          buildImageResponse).map (fun image => adoptImage image now)).foldl
          upsertFirst st.images := by
    rw [afterAddOf, hadded]
    simp [List.foldl_map]
  have hids :
      ((((S.filter fun img => classifyAdded (st.images.map toSummary) img).map
        buildImageResponse).map (fun image => adoptImage image now)).map
        LocalImageItem.id) =
        ((S.filter fun img => classifyAdded (st.images.map toSummary) img).map
          ServerImage.id) := by
    simp only [List.map_map]
    rfl
  have hRid_not_removed :
      R.id ∉ (syncHandler S (st.images.map toSummary)).removed :=
    removed_not_server_id S _ R.id (List.mem_map_of_mem _ hR)
  by_cases hcA : classifyAdded (st.images.map toSummary) R = true
  · have hmem :
        adoptImage (buildImageResponse R) now ∈
          (((S.filter fun img => classifyAdded (st.images.map toSummary) img).map
            buildImageResponse).map (fun image => adoptImage image now)) :=
      List.mem_map_of_mem _ (List.mem_map_of_mem _
        (List.mem_filter.mpr ⟨hR, hcA⟩))
    have hfind :
        findEntry
          (afterAddOf st.images (syncHandler S (st.images.map toSummary)) now)
          (adoptImage (buildImageResponse R) now).id =
          some (adoptImage (buildImageResponse R) now) := by
      rw [hAA]
      exact findEntry_foldl_upsert_mem _ _ _ hmem (by rw [hids]; exact hfilter_sub)
    refine ⟨resolvePending (adoptImage (buildImageResponse R) now), ?_, ?_⟩
    · have hid : (adoptImage (buildImageResponse R) now).id = R.id := rfl
      rw [runSync_images, findEntry_map_resolvePending, afterRemoveOf,
        findEntry_foldl_remove_not_mem _ _ _ hRid_not_removed, ← hid, hfind]
      rfl
    · rw [resolvePending_lastModified]
      exact le_rfl
  · have hcA' : classifyAdded (st.images.map toSummary) R = false := by
      simpa using hcA
    obtain ⟨s, hms, hdisj⟩ := classifyAdded_false_elim hcA'
    have hle : R.updatedAt ≤ s.lastModified := by
      rcases hdisj with hp | hle
      · exact classifyConflict_none_pending hms hp (hc R hR)
      · exact hle
    rw [localMapGet_map_toSummary R.id hl] at hms
    have hnotmem :
        R.id ∉ (((S.filter fun img =>
          classifyAdded (st.images.map toSummary) img).map
          buildImageResponse).map (fun image => adoptImage image now)).map
          LocalImageItem.id := by
      rw [hids]
      intro hmem
      rcases List.mem_map.mp hmem with ⟨Rp, hRp, hid⟩
      have hRpS : Rp ∈ S := (List.mem_filter.mp hRp).1
      have heq : Rp = R := List.inj_on_of_nodup_map hs hRpS hR hid
      rw [heq] at hRp
      have htrue := (List.mem_filter.mp hRp).2
      rw [hcA'] at htrue
      simp at htrue
    have hfind :
        findEntry
          (afterAddOf st.images (syncHandler S (st.images.map toSummary)) now)
          R.id = findEntry st.images R.id := by
      rw [hAA]
      exact findEntry_foldl_upsert_not_mem _ _ _ hnotmem
    cases hfe : findEntry st.images R.id with
    | none => rw [hfe] at hms; simp at hms
    | some y =>
      rw [hfe] at hms
      have hys : toSummary y = s := Option.some.inj hms
      refine ⟨resolvePending y, ?_, ?_⟩
      · rw [runSync_images, findEntry_map_resolvePending, afterRemoveOf,
          findEntry_foldl_remove_not_mem _ _ _ hRid_not_removed, hfind, hfe]
        rfl
      · rw [resolvePending_lastModified]
        have hlm : y.lastModified = s.lastModified := by rw [← hys]; rfl
        rw [hlm]
        exact hle

theorem afterAddOf_eq_foldl (l : List LocalImageItem) (resp : SyncResponse)
    (now : Nat) :
    afterAddOf l resp now =
      (resp.addedOrUpdated.map fun image => adoptImage image now).foldl
        upsertFirst l := by
  rw [afterAddOf, List.foldl_map]

theorem conflicts_zero_elim (st : ClientState) (S : List ServerImage)
    (now : Nat) (hc : (runSync st S now).2.conflicts = 0) :
    ∀ R ∈ S, classifyConflict (st.images.map toSummary) R = none := by
  rw [runSync_conflicts] at hc
  have hnil : S.filterMap (classifyConflict (st.images.map toSummary)) = [] :=
    List.length_eq_zero.mp hc
  rw [List.filterMap_eq_nil_iff] at hnil
  exact hnil

/-- C1 (amended): provided both replicas hold at most one entry per id and
the first round surfaces no conflict, a second `runSync()` round against the
same authoritative set reports `downloaded = 0`, `uploaded = 0` and
`conflicts = 0`. -/
theorem runSync_second_round_counters_zero (st : ClientState)
    (S : List ServerImage) (n1 n2 : Nat)
    (hl : NodupIds st.images) (hs : (S.map ServerImage.id).Nodup)
    (hc : (runSync st S n1).2.conflicts = 0) :
    (runSync (runSync st S n1).1 S n2).2.downloaded = 0 ∧
    (runSync (runSync st S n1).1 S n2).2.uploaded = 0 ∧
    (runSync (runSync st S n1).1 S n2).2.conflicts = 0 := by
  have hcnone : ∀ R ∈ S, classifyConflict (st.images.map toSummary) R = none :=
    conflicts_zero_elim st S n1 hc
  have hF_images : (runSync st S n1).1.images =
      (applySyncResponse st.images
        (syncHandler S (st.images.map toSummary)) n1).1 := rfl
  have hFnp : ∀ x ∈ (runSync st S n1).1.images, x.syncStatus ≠ .pending := by
    rw [hF_images]
    exact no_pending_afterApply _ _ _
  have hFnodup : NodupIds (runSync st S n1).1.images := by
    rw [hF_images]
    exact nodupIds_afterApply _ _ hl
  have hpay2 : ∀ s ∈ ((runSync st S n1).1.images.map toSummary),
      s.syncStatus ≠ .pending := by
    intro s hsmem
    rcases List.mem_map.mp hsmem with ⟨x, hx, rfl⟩
    exact hFnp x hx
  refine ⟨?_, ?_, ?_⟩
  · rw [runSync_downloaded]
    have hnil : (S.filter fun img =>
        classifyAdded ((runSync st S n1).1.images.map toSummary) img) = [] := by
      rw [List.filter_eq_nil_iff]
      intro R hR hadd
      obtain ⟨e, hfe, hle⟩ := runSync_findEntry st S n1 hl hs hcnone hR
      have hmg : localMapGet ((runSync st S n1).1.images.map toSummary) R.id =
          some (toSummary e) := by
        rw [localMapGet_map_toSummary R.id hFnodup, hfe]
        rfl
      have henp : e.syncStatus ≠ .pending :=
        hFnp e (List.mem_of_find?_eq_some hfe)
      simp only [classifyAdded, hmg] at hadd
      have hnp2 : ¬((toSummary e).syncStatus = SyncStatus.pending) := henp
      rw [if_neg hnp2] at hadd
      simp only [decide_eq_true_eq] at hadd
      exact absurd hadd (Nat.not_lt.mpr hle)
    show ((S.filter fun img =>
      classifyAdded ((runSync st S n1).1.images.map toSummary) img).map
        buildImageResponse).length = 0
    rw [hnil]
    rfl
  · rw [runSync_uploaded]
    have hnil : ((afterRemoveOf (runSync st S n1).1.images
        (syncHandler S ((runSync st S n1).1.images.map toSummary)) n2).filter
          fun img => decide (img.syncStatus = .pending)) = [] := by
      rw [List.filter_eq_nil_iff]
      intro x hx hpend
      simp only [decide_eq_true_eq] at hpend
      rw [afterRemoveOf] at hx
      have hx2 := mem_foldl_remove _ _ _ hx
      rw [afterAddOf_eq_foldl] at hx2
      rcases mem_foldl_upsert _ _ _ hx2 with h1 | h2
      · exact hFnp x h1 hpend
      · rcases List.mem_map.mp h2 with ⟨img, _, rfl⟩
        simp [adoptImage] at hpend
    rw [hnil]
    rfl
  · rw [runSync_conflicts]
    have hnil : S.filterMap
        (classifyConflict ((runSync st S n1).1.images.map toSummary)) = [] := by
      rw [List.filterMap_eq_nil_iff]
      intro R _
      exact classifyConflict_eq_none_of_no_pending hpay2 R
    show (S.filterMap
      (classifyConflict ((runSync st S n1).1.images.map toSummary))).length = 0
    rw [hnil]
    rfl

/-- A concrete pending local record (`lastModified = 100`). -/
def cexLocal : LocalImageItem :=
  { id := 1, filename := "a.jpg", mimetype := some "image/jpeg", size := 10,
    createdAt := some 0, updatedAt := some 0, thumbnail := some "t",
    original := some "o", lastModified := 100, syncStatus := .pending }

/-- A concrete authoritative record newer than `cexLocal`. -/
def cexServerNewer : ServerImage :=
  { id := 1, filename := "a.jpg", mimetype := "image/jpeg", size := 10,
    createdAt := 0, updatedAt := 150 }

/-- A concrete authoritative record older than `cexLocal`. -/
def cexServerOlder : ServerImage :=
  { id := 1, filename := "a.jpg", mimetype := "image/jpeg", size := 10,
    createdAt := 0, updatedAt := 50 }

/-- C1 counterexample: with a single pending local record (`lastModified =
100`) and a newer authoritative record (`updatedAt = 150`), the first
`runSync()` round completes successfully (surfacing one conflict and keeping
the local value as `synced` with `lastModified = 100`), yet the second round
re-downloads the record: it returns `downloaded = 1`, not `0`.  The claimed
idempotence therefore fails whenever the first round reports a conflict. -/
theorem runSync_idempotence_counterexample :
    (runSync (⟨[cexLocal], none⟩ : ClientState) [cexServerNewer] 200).2.success
        = true ∧
      ¬((runSync (runSync (⟨[cexLocal], none⟩ : ClientState) [cexServerNewer]
          200).1 [cexServerNewer] 300).2.downloaded = 0 ∧
        (runSync (runSync (⟨[cexLocal], none⟩ : ClientState) [cexServerNewer]
          200).1 [cexServerNewer] 300).2.uploaded = 0 ∧
        (runSync (runSync (⟨[cexLocal], none⟩ : ClientState) [cexServerNewer]
          200).1 [cexServerNewer] 300).2.conflicts = 0) := by
  decide

/-- C1 witness: the amended second-round theorem applied to a concrete
conflict-free state. -/
theorem runSync_second_round_counters_zero_witness :
    NodupIds ((⟨[cexLocal], none⟩ : ClientState).images) ∧
    (([cexServerOlder].map ServerImage.id)).Nodup ∧
    (runSync (⟨[cexLocal], none⟩ : ClientState) [cexServerOlder] 200).2.conflicts
      = 0 ∧
    ((runSync (runSync (⟨[cexLocal], none⟩ : ClientState) [cexServerOlder]
        200).1 [cexServerOlder] 300).2.downloaded = 0 ∧
      (runSync (runSync (⟨[cexLocal], none⟩ : ClientState) [cexServerOlder]
        200).1 [cexServerOlder] 300).2.uploaded = 0 ∧
      (runSync (runSync (⟨[cexLocal], none⟩ : ClientState) [cexServerOlder]
        200).1 [cexServerOlder] 300).2.conflicts = 0) :=
  ⟨by decide, by decide, by decide,
    runSync_second_round_counters_zero ⟨[cexLocal], none⟩ [cexServerOlder]
      200 300 (by decide) (by decide) (by decide)⟩

theorem idsOf_markImagePending (l : List LocalImageItem) (i now : Nat) :
    idsOf (markImagePending l i now) = idsOf l := by
  induction l with
  | nil => rfl
  | cons x xs ih =>
    by_cases h : x.id = i
    · rw [markImagePending, if_pos h]
      simp [idsOf]
    · rw [markImagePending, if_neg h]
      simp only [idsOf, List.map_cons] at *
      rw [ih]

/-- A concrete server-shaped record with `updatedAt = 50`, used to
instantiate hypotheses of universally quantified theorems. -/
def cexImage : ImageItem :=
  { id := 1, filename := "a.jpg", mimetype := none, size := 5,
    createdAt := some 30, updatedAt := some 50, thumbnail := none,
    original := none }

/-- C3: if the transport call of `syncWithServer` fails (network error,
non-2xx status or malformed body, all surfaced as `Except.error`), the
stored replica and last-sync marker are returned unchanged and the result
is `{success := false, error, uploaded := 0, downloaded := 0,
conflicts := 0}`. -/
theorem syncWithServer_transport_failure (st : ClientState)
    (transport : List SyncSummary → Except String SyncResponse)
    (e : String) (now : Nat)
    (h : transport (st.images.map toSummary) = .error e) :
    syncWithServer st transport now =
      (st, { success := false, uploaded := 0, downloaded := 0,
             conflicts := 0, error := some e }) := by
  unfold syncWithServer
  rw [h]

/-- C3 witness: a failing transport on a one-record replica. -/
theorem syncWithServer_transport_failure_witness :
    ((fun _ : List SyncSummary =>
        (Except.error "network" : Except String SyncResponse))
      ((⟨[cexLocal], none⟩ : ClientState).images.map toSummary) =
        .error "network") ∧
    syncWithServer (⟨[cexLocal], none⟩ : ClientState)
        (fun _ => .error "network") 5 =
      (⟨[cexLocal], none⟩,
       { success := false, uploaded := 0, downloaded := 0, conflicts := 0,
         error := some "network" }) :=
  ⟨rfl, syncWithServer_transport_failure ⟨[cexLocal], none⟩
    (fun _ => .error "network") "network" 5 rfl⟩

/-- C8: `loadLocalImages` is total and non-failing: a throwing storage
access, an absent key, a parse failure and a non-array value all yield the
empty list, and an array of raw records yields one normalised record per
raw record. -/
theorem loadLocalImages_total (now : Nat) (raw : List RawLocalImage) :
    loadLocalImages .throws now = [] ∧
    loadLocalImages .absent now = [] ∧
    loadLocalImages .malformed now = [] ∧
    loadLocalImages .notArray now = [] ∧
    (loadLocalImages (.records raw) now).length = raw.length :=
  ⟨rfl, rfl, rfl, rfl, List.length_map raw _⟩

/-- C10: after a successful `syncWithServer` round no stored record is
`pending`: adopted records are stored `synced` and surviving pending
records are switched to `synced` by the local-wins commit. -/
theorem syncWithServer_no_pending_after_success (st : ClientState)
    (transport : List SyncSummary → Except String SyncResponse)
    (now : Nat) (resp : SyncResponse)
    (h : transport (st.images.map toSummary) = .ok resp) :
    (∀ x ∈ (syncWithServer st transport now).1.images,
      x.syncStatus ≠ .pending) ∧
    (∀ image : ImageItem, (adoptImage image now).syncStatus = .synced) := by
  constructor
  · have himg : (syncWithServer st transport now).1.images =
        (applySyncResponse st.images resp now).1 := by
      unfold syncWithServer
      rw [h]
    intro x hx
    rw [himg] at hx
    exact no_pending_afterApply _ _ _ x hx
  · intro image
    rfl

/-- C10 witness: an empty successful response over a pending replica. -/
theorem syncWithServer_no_pending_after_success_witness :
    ((fun _ : List SyncSummary =>
        (Except.ok (⟨[], [], []⟩ : SyncResponse) : Except String SyncResponse))
      ((⟨[cexLocal], none⟩ : ClientState).images.map toSummary) =
        .ok (⟨[], [], []⟩ : SyncResponse)) ∧
    ((∀ x ∈ (syncWithServer (⟨[cexLocal], none⟩ : ClientState)
        (fun _ => .ok (⟨[], [], []⟩ : SyncResponse)) 7).1.images,
      x.syncStatus ≠ .pending) ∧
     (∀ image : ImageItem, (adoptImage image 7).syncStatus = .synced)) :=
  ⟨rfl, syncWithServer_no_pending_after_success (⟨[cexLocal], none⟩ : ClientState)
    (fun _ => .ok (⟨[], [], []⟩ : SyncResponse)) 7 ⟨[], [], []⟩ rfl⟩

/-- C9: every replica mutation — `updateLocalImage`, `markImagePending`,
`removeLocalImage` and the apply phase of `syncWithServer` — preserves the
at-most-one-entry-per-id invariant. -/
theorem replica_ops_preserve_nodup_ids (l : List LocalImageItem)
    (st : ClientState) (image : ImageItem) (i now n : Nat)
    (transport : List SyncSummary → Except String SyncResponse)
    (hl : NodupIds l) (hst : NodupIds st.images) :
    NodupIds (updateLocalImage l image now) ∧
    NodupIds (markImagePending l i now) ∧
    NodupIds (removeLocalImage l i) ∧
    NodupIds (syncWithServer st transport n).1.images := by
  refine ⟨nodupIds_upsertFirst _ hl, ?_, ?_, ?_⟩
  · rw [NodupIds, idsOf_markImagePending]
    exact hl
  · exact hl.sublist ((List.filter_sublist l).map LocalImageItem.id)
  · cases htr : transport (st.images.map toSummary) with
    | error e =>
      have himg : (syncWithServer st transport n).1.images = st.images := by
        unfold syncWithServer
        rw [htr]
      rw [himg]
      exact hst
    | ok resp =>
      have himg : (syncWithServer st transport n).1.images =
          (applySyncResponse st.images resp n).1 := by
        unfold syncWithServer
        rw [htr]
      rw [himg]
      exact nodupIds_afterApply _ _ hst

/-- C9 witness: the invariant theorem at a concrete one-record replica. -/
theorem replica_ops_preserve_nodup_ids_witness :
    NodupIds [cexLocal] ∧
    NodupIds ((⟨[cexLocal], none⟩ : ClientState).images) ∧
    (NodupIds (updateLocalImage [cexLocal] cexImage 9) ∧
     NodupIds (markImagePending [cexLocal] 1 9) ∧
     NodupIds (removeLocalImage [cexLocal] 1) ∧
     NodupIds (syncWithServer (⟨[cexLocal], none⟩ : ClientState)
       (fun _ => .error "down") 9).1.images) :=
  ⟨by decide, by decide,
    replica_ops_preserve_nodup_ids [cexLocal] ⟨[cexLocal], none⟩ cexImage 1 9 9
      (fun _ => .error "down") (by decide) (by decide)⟩

/-- C6: the spec's local-wins scenario: a single pending local record with
`lastModified = 100` against an authoritative record with `updatedAt = 50`
reconciles to the empty classification, the record ends `synced` with its
local value retained, `uploaded = 1` and no conflict. -/
theorem runSync_local_wins_scenario :
    syncHandler [cexServerOlder]
        ((⟨[cexLocal], none⟩ : ClientState).images.map toSummary) =
      ⟨[], [], []⟩ ∧
    (runSync (⟨[cexLocal], none⟩ : ClientState) [cexServerOlder] 200).1.images =
      [{ cexLocal with syncStatus := .synced }] ∧
    (runSync (⟨[cexLocal], none⟩ : ClientState) [cexServerOlder] 200).2.uploaded
      = 1 ∧
    (runSync (⟨[cexLocal], none⟩ : ClientState) [cexServerOlder]
      200).2.conflicts = 0 := by
  decide

/-- C2: for a replica holding one pending record with `lastModified = T`
and an authoritative record with the same id and `updatedAt = T + 1`, the
round reports one conflict, the comparator emits exactly the entry carrying
`serverUpdatedAt = T + 1` (the remote `updatedAt`) and
`localLastModified = T`, the record is not classified `addedOrUpdated`, and
afterwards the record is stored `synced` with its local value retained. -/
theorem runSync_conflict_surfacing (loc : LocalImageItem) (R : ServerImage)
    (ls : Option Nat) (now : Nat)
    (hid : R.id = loc.id) (hp : loc.syncStatus = .pending)
    (hupd : R.updatedAt = loc.lastModified + 1) :
    (runSync (⟨[loc], ls⟩ : ClientState) [R] now).2.conflicts = 1 ∧
    (syncHandler [R] [toSummary loc]).conflicts =
      [{ id := R.id, server := buildImageResponse R,
         serverUpdatedAt := loc.lastModified + 1,
         localLastModified := loc.lastModified }] ∧
    (syncHandler [R] [toSummary loc]).addedOrUpdated = [] ∧
    (runSync (⟨[loc], ls⟩ : ClientState) [R] now).1.images =
      [{ loc with syncStatus := .synced }] := by
  have hmg : localMapGet [toSummary loc] R.id = some (toSummary loc) := by
    unfold localMapGet
    simp [toSummary, hid]
  have hcc : classifyConflict [toSummary loc] R =
      some { id := R.id, server := buildImageResponse R,
             serverUpdatedAt := loc.lastModified + 1,
             localLastModified := loc.lastModified } := by
    simp only [classifyConflict, hmg]
    rw [if_pos ⟨show (toSummary loc).syncStatus = .pending from hp,
      show R.updatedAt > (toSummary loc).lastModified from
        (by rw [hupd]; exact Nat.lt_succ_self loc.lastModified)⟩]
    rw [hupd]
    rfl
  have hca : classifyAdded [toSummary loc] R = false := by
    simp only [classifyAdded, hmg]
    rw [if_pos (show (toSummary loc).syncStatus = .pending from hp)]
  have h2 : (syncHandler [R] [toSummary loc]).conflicts =
      [{ id := R.id, server := buildImageResponse R,
         serverUpdatedAt := loc.lastModified + 1,
         localLastModified := loc.lastModified }] := by
    show [R].filterMap (classifyConflict [toSummary loc]) = _
    rw [List.filterMap_cons, hcc]
    rfl
  have h3 : (syncHandler [R] [toSummary loc]).addedOrUpdated = [] := by
    show ([R].filter fun img => classifyAdded [toSummary loc] img).map
      buildImageResponse = []
    rw [List.filter_cons]
    simp [hca]
  have h4 : (syncHandler [R] [toSummary loc]).removed = [] := by
    show (([toSummary loc].filter fun s =>
      decide (s.id ∉ [R].map ServerImage.id) &&
        decide (s.syncStatus ≠ .pending)).map SyncSummary.id) = []
    simp [toSummary, hid]
  refine ⟨?_, h2, h3, ?_⟩
  · show (syncHandler [R] [toSummary loc]).conflicts.length = 1
    rw [h2]
    rfl
  · show ((afterRemoveOf [loc] (syncHandler [R] [toSummary loc]) now).map
      resolvePending) = [{ loc with syncStatus := .synced }]
    rw [afterRemoveOf, h4, List.foldl_nil, afterAddOf, h3, List.foldl_nil]
    simp [resolvePending, hp]

/-- A concrete authoritative record exactly one tick newer than `cexLocal`. -/
def cexServerPlusOne : ServerImage :=
  { id := 1, filename := "a.jpg", mimetype := "image/jpeg", size := 10,
    createdAt := 0, updatedAt := 101 }

/-- C2 witness: the conflict-surfacing theorem at `T = 100`. -/
theorem runSync_conflict_surfacing_witness :
    (cexServerPlusOne.id = cexLocal.id ∧
     cexLocal.syncStatus = .pending ∧
     cexServerPlusOne.updatedAt = cexLocal.lastModified + 1) ∧
    ((runSync (⟨[cexLocal], none⟩ : ClientState) [cexServerPlusOne]
        200).2.conflicts = 1 ∧
     (syncHandler [cexServerPlusOne] [toSummary cexLocal]).conflicts =
       [{ id := cexServerPlusOne.id,
          server := buildImageResponse cexServerPlusOne,
          serverUpdatedAt := cexLocal.lastModified + 1,
          localLastModified := cexLocal.lastModified }] ∧
     (syncHandler [cexServerPlusOne] [toSummary cexLocal]).addedOrUpdated = [] ∧
     (runSync (⟨[cexLocal], none⟩ : ClientState) [cexServerPlusOne]
        200).1.images = [{ cexLocal with syncStatus := .synced }]) :=
  ⟨⟨by decide, by decide, by decide⟩,
    runSync_conflict_surfacing cexLocal cexServerPlusOne none 200
      (by decide) (by decide) (by decide)⟩

theorem classifyAdded_true_iff (locals : List SyncSummary) (R : ServerImage) :
    classifyAdded locals R = true ↔
      localMapGet locals R.id = none ∨
        ∃ s, localMapGet locals R.id = some s ∧ s.syncStatus ≠ .pending ∧
          s.lastModified < R.updatedAt := by
  cases hm : localMapGet locals R.id with
  | none => simp [classifyAdded, hm]
  | some s =>
    simp only [classifyAdded, hm]
    by_cases hp : s.syncStatus = .pending
    · rw [if_pos hp]
      simp [hp]
    · rw [if_neg hp]
      simp [hp]

theorem classifyConflict_some_elim {locals : List SyncSummary}
    {R : ServerImage} {e : ConflictEntry}
    (h : classifyConflict locals R = some e) :
    ∃ s, localMapGet locals R.id = some s ∧ s.syncStatus = .pending ∧
      s.lastModified < R.updatedAt ∧
      e = { id := R.id, server := buildImageResponse R,
            serverUpdatedAt := R.updatedAt,
            localLastModified := s.lastModified } := by
  cases hm : localMapGet locals R.id with
  | none => simp [classifyConflict, hm] at h
  | some s =>
    simp only [classifyConflict, hm] at h
    by_cases hcond : s.syncStatus = .pending ∧ R.updatedAt > s.lastModified
    · rw [if_pos hcond] at h
      exact ⟨s, rfl, hcond.1, hcond.2, (Option.some.inj h).symm⟩
    · rw [if_neg hcond] at h
      cases h

theorem mem_addedOrUpdated_iff (S : List ServerImage)
    (locals : List SyncSummary) (R : ServerImage)
    (hR : R ∈ S) (hs : (S.map ServerImage.id).Nodup) :
    buildImageResponse R ∈ (syncHandler S locals).addedOrUpdated ↔
      classifyAdded locals R = true := by
  constructor
  · intro hmem
    have hform : (syncHandler S locals).addedOrUpdated =
        (S.filter fun img => classifyAdded locals img).map
          buildImageResponse := rfl
    rw [hform] at hmem
    rcases List.mem_map.mp hmem with ⟨Rp, hRp, hbuild⟩
    have hid : Rp.id = R.id := congrArg ImageItem.id hbuild
    have hRpS : Rp ∈ S := (List.mem_filter.mp hRp).1
    have hRR : Rp = R := List.inj_on_of_nodup_map hs hRpS hR hid
    rw [← hRR]
    exact (List.mem_filter.mp hRp).2
  · intro hcA
    exact List.mem_map_of_mem _ (List.mem_filter.mpr ⟨hR, hcA⟩)

theorem findEntry_of_mem_nodup :
    ∀ {l : List LocalImageItem} {x : LocalImageItem}, NodupIds l → x ∈ l →
      findEntry l x.id = some x := by
  intro l
  induction l with
  | nil => intro x _ hx; cases hx
  | cons y ys ih =>
    intro x hl hx
    simp only [NodupIds, idsOf, List.map_cons, List.nodup_cons] at hl
    rcases List.mem_cons.mp hx with rfl | hmem
    · rw [findEntry_cons, if_pos rfl]
    · rw [findEntry_cons]
      by_cases hyx : y.id = x.id
      · exact absurd (hyx ▸ List.mem_map_of_mem LocalImageItem.id hmem) hl.1
      · rw [if_neg hyx]
        exact ih hl.2 hmem

theorem adds_ids_sub (S : List ServerImage) (locals : List SyncSummary)
    (now : Nat) (i : Nat)
    (hmem : i ∈ ((syncHandler S locals).addedOrUpdated.map
      (fun image => adoptImage image now)).map LocalImageItem.id) :
    i ∈ S.map ServerImage.id := by
  rcases List.mem_map.mp hmem with ⟨y, hy, rfl⟩
  rcases List.mem_map.mp hy with ⟨img, himg, rfl⟩
  have himg2 : img ∈ (S.filter fun R => classifyAdded locals R).map
      buildImageResponse := himg
  rcases List.mem_map.mp himg2 with ⟨R, hRf, rfl⟩
  exact List.mem_map_of_mem ServerImage.id (List.mem_filter.mp hRf).1

/-- C4: comparator classification of an authoritative record `R`: `R` is
in `addedOrUpdated` exactly when no matching local summary exists, or the
matching summary is non-pending and strictly older than `R.updatedAt`; a
pending matching summary strictly older than `R.updatedAt` yields exactly
the conflict entry `{id, server, serverUpdatedAt, localLastModified}` and
excludes `R` from `addedOrUpdated`; otherwise `R` is in neither list. -/
theorem syncHandler_classification (S : List ServerImage)
    (locals : List SyncSummary) (R : ServerImage)
    (hR : R ∈ S) (hs : (S.map ServerImage.id).Nodup) :
    (buildImageResponse R ∈ (syncHandler S locals).addedOrUpdated ↔
      localMapGet locals R.id = none ∨
        ∃ s, localMapGet locals R.id = some s ∧ s.syncStatus ≠ .pending ∧
          s.lastModified < R.updatedAt) ∧
    (∀ s, localMapGet locals R.id = some s → s.syncStatus = .pending →
      s.lastModified < R.updatedAt →
        ({ id := R.id, server := buildImageResponse R,
           serverUpdatedAt := R.updatedAt,
           localLastModified := s.lastModified } : ConflictEntry)
          ∈ (syncHandler S locals).conflicts ∧
        buildImageResponse R ∉ (syncHandler S locals).addedOrUpdated) ∧
    ((∃ e ∈ (syncHandler S locals).conflicts, e.id = R.id) ↔
      ∃ s, localMapGet locals R.id = some s ∧ s.syncStatus = .pending ∧
        s.lastModified < R.updatedAt) := by
  refine ⟨?_, ?_, ?_⟩
  · rw [mem_addedOrUpdated_iff S locals R hR hs]
    exact classifyAdded_true_iff locals R
  · intro s hm hp hlt
    have hcc : classifyConflict locals R =
        some { id := R.id, server := buildImageResponse R,
               serverUpdatedAt := R.updatedAt,
               localLastModified := s.lastModified } := by
      simp only [classifyConflict, hm]
      rw [if_pos ⟨hp, hlt⟩]
    constructor
    · exact List.mem_filterMap.mpr ⟨R, hR, hcc⟩
    · rw [mem_addedOrUpdated_iff S locals R hR hs]
      intro htrue
      rw [classifyAdded_true_iff] at htrue
      rcases htrue with hnone | ⟨sp, hmp, hnp, _⟩
      · rw [hm] at hnone
        cases hnone
      · have hss : s = sp := by
          rw [hm] at hmp
          exact Option.some.inj hmp
        subst hss
        exact hnp hp
  · constructor
    · rintro ⟨e, he, heid⟩
      rcases List.mem_filterMap.mp he with ⟨Rp, hRpS, hccp⟩
      obtain ⟨s, hm, hp, hlt, hee⟩ := classifyConflict_some_elim hccp
      have hid : Rp.id = R.id := by
        rw [← heid, hee]
      have hRR : Rp = R := List.inj_on_of_nodup_map hs hRpS hR hid
      subst hRR
      exact ⟨s, hm, hp, hlt⟩
    · rintro ⟨s, hm, hp, hlt⟩
      refine ⟨{ id := R.id, server := buildImageResponse R,
                serverUpdatedAt := R.updatedAt,
                localLastModified := s.lastModified }, ?_, rfl⟩
      refine List.mem_filterMap.mpr ⟨R, hR, ?_⟩
      simp only [classifyConflict, hm]
      rw [if_pos ⟨hp, hlt⟩]

/-- C4 witness: the classification theorem instantiated on a one-record
authoritative set and a pending older summary, yielding the conflict. -/
theorem syncHandler_classification_witness :
    cexServerPlusOne ∈ [cexServerPlusOne] ∧
    ([cexServerPlusOne].map ServerImage.id).Nodup ∧
    (∃ e ∈ (syncHandler [cexServerPlusOne]
        [toSummary cexLocal]).conflicts, e.id = cexServerPlusOne.id) :=
  ⟨by decide, by decide,
    ((syncHandler_classification [cexServerPlusOne] [toSummary cexLocal]
        cexServerPlusOne (by decide) (by decide)).2.2).mpr
      ⟨toSummary cexLocal, by decide, by decide, by decide⟩⟩

/-- C5: removal safety: a local record whose id is absent from the
authoritative set is placed in `removed` iff it is not `pending`; after the
round a pending such record survives (marked `synced`) while a non-pending
such record is deleted from the replica. -/
theorem runSync_removal_safety (st : ClientState) (S : List ServerImage)
    (now : Nat) (x : LocalImageItem)
    (hl : NodupIds st.images) (hx : x ∈ st.images)
    (habs : x.id ∉ S.map ServerImage.id) :
    (x.id ∈ (syncHandler S (st.images.map toSummary)).removed ↔
      x.syncStatus ≠ .pending) ∧
    (x.syncStatus = .pending →
      findEntry (runSync st S now).1.images x.id =
        some { x with syncStatus := .synced }) ∧
    (x.syncStatus ≠ .pending →
      findEntry (runSync st S now).1.images x.id = none) := by
  have hA : x.id ∈ (syncHandler S (st.images.map toSummary)).removed ↔
      x.syncStatus ≠ .pending := by
    constructor
    · intro hmem
      have hform : (syncHandler S (st.images.map toSummary)).removed =
          (((st.images.map toSummary).filter fun s =>
            decide (s.id ∉ S.map ServerImage.id) &&
              decide (s.syncStatus ≠ .pending)).map SyncSummary.id) := rfl
      rw [hform] at hmem
      rcases List.mem_map.mp hmem with ⟨s, hsf, hsid⟩
      have hsp := (List.mem_filter.mp hsf).2
      simp only [Bool.and_eq_true, decide_eq_true_eq] at hsp
      rcases List.mem_map.mp (List.mem_filter.mp hsf).1 with ⟨y, hy, rfl⟩
      have hyx : y = x :=
        List.inj_on_of_nodup_map hl hy hx hsid
      rw [← hyx]
      exact hsp.2
    · intro hnp
      have hq : (decide ((toSummary x).id ∉ S.map ServerImage.id) &&
          decide ((toSummary x).syncStatus ≠ .pending)) = true := by
        simp only [Bool.and_eq_true, decide_eq_true_eq]
        exact ⟨habs, hnp⟩
      exact List.mem_map_of_mem SyncSummary.id
        (List.mem_filter.mpr ⟨List.mem_map_of_mem toSummary hx, hq⟩)
  have hAdd : findEntry
      (afterAddOf st.images (syncHandler S (st.images.map toSummary)) now)
      x.id = some x := by
    rw [afterAddOf_eq_foldl,
      findEntry_foldl_upsert_not_mem _ _ _
        (fun hmem => habs (adds_ids_sub S (st.images.map toSummary) now x.id hmem))]
    exact findEntry_of_mem_nodup hl hx
  have hAddNodup : NodupIds
      (afterAddOf st.images (syncHandler S (st.images.map toSummary)) now) := by
    rw [afterAddOf_eq_foldl]
    exact nodupIds_foldl_upsert _ _ hl
  refine ⟨hA, ?_, ?_⟩
  · intro hp
    have hnotrem : x.id ∉ (syncHandler S (st.images.map toSummary)).removed := by
      intro hmem
      exact (hA.mp hmem) hp
    rw [runSync_images, findEntry_map_resolvePending, afterRemoveOf,
      findEntry_foldl_remove_not_mem _ _ _ hnotrem, hAdd]
    simp [resolvePending, hp]
  · intro hnp
    have hrem : x.id ∈ (syncHandler S (st.images.map toSummary)).removed :=
      hA.mpr hnp
    rw [runSync_images, findEntry_map_resolvePending, afterRemoveOf,
      findEntry_foldl_remove_mem _ _ _ hrem hAddNodup]
    rfl

/-- C5 witness: the removal-safety theorem on a pending record absent from
an empty authoritative set. -/
theorem runSync_removal_safety_witness :
    NodupIds ((⟨[cexLocal], none⟩ : ClientState).images) ∧
    cexLocal ∈ (⟨[cexLocal], none⟩ : ClientState).images ∧
    cexLocal.id ∉ ([] : List ServerImage).map ServerImage.id ∧
    cexLocal.syncStatus = .pending ∧
    findEntry (runSync (⟨[cexLocal], none⟩ : ClientState) [] 3).1.images
      cexLocal.id = some { cexLocal with syncStatus := .synced } :=
  ⟨by decide, by decide, by decide, by decide,
    (runSync_removal_safety (⟨[cexLocal], none⟩ : ClientState) [] 3 cexLocal
      (by decide) (by decide) (by decide)).2.1 (by decide)⟩

/-- C7 counterexample: `updateLocalImage` does not stamp the entry with the
current time.  Inserting `cexImage` (whose `updatedAt` is 50) at
`now = 1000` stores `lastModified = 50`, not `1000`. -/
theorem updateLocalImage_now_counterexample :
    (updateLocalImage [] cexImage 1000).map (fun e => e.lastModified) =
      [50] ∧ (50 : Nat) ≠ 1000 := by
  decide

/-- C7 (amended): `updateLocalImage` inserts or overwrites the single entry
keyed by `image.id`, sets `syncStatus = synced`, sets `lastModified` to the
record's `updatedAt` timestamp (falling back to `createdAt`, and only to the
current time when both are absent), leaves every other key unchanged, and
returns the full mapping for persistence. -/
theorem updateLocalImage_spec (l : List LocalImageItem) (image : ImageItem)
    (now : Nat) :
    findEntry (updateLocalImage l image now) image.id =
      some (localImageOf image now) ∧
    (localImageOf image now).syncStatus = .synced ∧
    (localImageOf image now).lastModified =
      image.updatedAt.getD (image.createdAt.getD now) ∧
    (∀ j, j ≠ image.id →
      findEntry (updateLocalImage l image now) j = findEntry l j) ∧
    idsOf (updateLocalImage l image now) =
      if image.id ∈ idsOf l then idsOf l else idsOf l ++ [image.id] := by
  refine ⟨?_, rfl, rfl, ?_, ?_⟩
  · rw [updateLocalImage, findEntry_upsertFirst,
      if_pos (show (localImageOf image now).id = image.id from rfl)]
  · intro j hj
    rw [updateLocalImage, findEntry_upsertFirst,
      if_neg (fun e => hj (e.symm : j = (localImageOf image now).id))]
  · rw [updateLocalImage, idsOf_upsertFirst]
    rfl

/-- C7 witness: the amended upsert contract at a concrete replica, with the
other-keys clause discharged at key 2. -/
theorem updateLocalImage_spec_witness :
    (2 : Nat) ≠ cexImage.id ∧
    findEntry (updateLocalImage [cexLocal] cexImage 1000) 2 =
      findEntry [cexLocal] 2 :=
  ⟨by decide,
    (updateLocalImage_spec [cexLocal] cexImage 1000).2.2.2.1 2 (by decide)⟩
